import Mathlib

/-!
Verification of the CDSfold benchmarking harness
(`benchmark.cpp` and `micro_benchmark.cpp`).

The development shallowly embeds the harness's pure computational core:

* the old (loop-based) and new (formula-based) matrix-size computations of
  `micro_benchmark.cpp`;
* the improvement-percentage computation of the micro-benchmark engine;
* the corpus generator of `benchmark.cpp` (`std::mt19937` seeded with 42
  together with libstdc++'s `uniform_int_distribution` over the amino-acid
  alphabet), modelled bit-exactly;
* the subprocess timing classification (`benchmarkCDSfold`), the matrix
  runner's recording rule, the statistics aggregation (`analyzeResults`),
  the file-name scheme and its re-parsing, and the top-level exit behavior
  of `main`.

Durations are modelled as rationals; machine 32-bit words as naturals
reduced modulo 2 ^ 32; C `int` values as integers with truncating division
(`Int.tdiv`), matching C semantics on the relevant domain.
-/

namespace CDSfold

/-! ## micro_benchmark.cpp: matrix-size computations -/

/-- `old_getMatrixSize` (micro_benchmark.cpp lines 31-37): loop-based sum.
The C loop runs `i = 1 .. w`, adding `len - (i - 1)` each time; we fold over
`i = 0 .. w-1`, adding `len - i`, which is the same sequence of additions.
For `w ≤ 0` the loop body never executes (`w.toNat = 0`). -/
def old_getMatrixSize (len w : Int) : Int :=
  (List.range w.toNat).foldl (fun size i => size + (len - Int.ofNat i)) 0

/-- `new_getMatrixSize` (micro_benchmark.cpp lines 40-45): closed formula.
C integer division truncates toward zero, i.e. `Int.tdiv`. -/
def new_getMatrixSize (len w : Int) : Int :=
  if w ≤ len then
    w * len - Int.tdiv (w * (w - 1)) 2
  else
    Int.tdiv (len * (len + 1)) 2

/-! ## micro_benchmark.cpp: improvement percentage -/

/-- The improvement computation appearing after each micro-benchmark pair
(micro_benchmark.cpp line 116 and analogues):
`improvement = ((old_time - new_time) / old_time) * 100`. -/
def improvement_pct (old_time new_time : ℚ) : ℚ :=
  ((old_time - new_time) / old_time) * 100

/-! ## benchmark.cpp: corpus generator

`PerformanceBenchmark` holds a single `std::mt19937 rng` member seeded with
42 at construction; `generateTestSequence` draws from it through a
`uniform_int_distribution<int>(0, 20)`.  We model the Mersenne Twister
mt19937 engine exactly as specified by the C++ standard (and implemented by
libstdc++, the repository's target toolchain), with the 624-word state as a
list of naturals below 2 ^ 32. -/

/-- mt19937 state-array seeding: `x[i] = 1812433253 * (x[i-1] xor (x[i-1] >> 30)) + i`
modulo 2 ^ 32, producing entries `i, i+1, ...` from the previous entry. -/
def mtInitAux : Nat → Nat → Nat → List Nat
  | 0, _, _ => []
  | k+1, prev, i =>
    let x := (1812433253 * (prev ^^^ (prev >>> 30)) + i) % 2^32
    x :: mtInitAux k x (i+1)

/-- The full 624-word seeded state, `x[0] = seed`. -/
def mtInit (seed : Nat) : List Nat :=
  (seed % 2^32) :: mtInitAux 623 (seed % 2^32) 1

/-- One in-place step of the mt19937 twist at index `i` (indices `i+1` and
`i+397` are read modulo 624 from the partially updated state, exactly as in
the sequential in-place loop). -/
def twistStep (a : List Nat) (i : Nat) : List Nat :=
  let y := ((a.getD i 0) &&& 0x80000000) ||| ((a.getD ((i+1) % 624) 0) &&& 0x7fffffff)
  let v := (a.getD ((i+397) % 624) 0) ^^^ (y >>> 1) ^^^ (if y % 2 = 1 then 0x9908b0df else 0)
  a.set i v

/-- The full state twist: 624 sequential in-place steps. -/
def twist (a : List Nat) : List Nat :=
  (List.range 624).foldl twistStep a

/-- mt19937 output tempering. -/
def temper (y : Nat) : Nat :=
  let y1 := y ^^^ (y >>> 11)
  let y2 := y1 ^^^ ((y1 <<< 7) &&& 0x9d2c5680)
  let y3 := y2 ^^^ ((y2 <<< 15) &&& 0xefc60000)
  y3 ^^^ (y3 >>> 18)

/-- An mt19937 engine state: the word array plus the read index. -/
structure MTState where
  arr : List Nat
  idx : Nat
deriving DecidableEq

/-- A freshly seeded engine (`std::mt19937 rng(seed)`); the first draw
triggers a twist, as the index starts saturated. -/
def mt19937Seed (seed : Nat) : MTState := ⟨mtInit seed, 624⟩

/-- One raw 32-bit draw from the engine. -/
def mtNext (s : MTState) : Nat × MTState :=
  if s.idx ≥ 624 then
    let a := twist s.arr
    (temper (a.getD 0 0), ⟨a, 1⟩)
  else
    (temper (s.arr.getD s.idx 0), ⟨s.arr, s.idx + 1⟩)

/-- libstdc++ `uniform_int_distribution(0, 20)` scaling constant:
`(2^32 - 1) / (20 + 1)` with natural division. -/
def distScaling : Nat := (2^32 - 1) / 21

/-- Rejection threshold `21 * distScaling`; raw draws at or above it are
rejected and redrawn. -/
def distPast : Nat := 21 * distScaling

/-- One draw from `uniform_int_distribution<int>(0, 20)` applied to the
engine: rejection sampling followed by division by the scaling constant.
The C++ rejection loop is unbounded; rejection occurs with probability
below 10⁻⁹ per draw, and the fuel parameter strictly dominates the number
of retries in every execution reached in this development. -/
def distDraw : Nat → MTState → Nat × MTState
  | 0, s => (0, s)
  | fuel+1, s =>
    let (r, s1) := mtNext s
    if r ≥ distPast then distDraw fuel s1 else (r / distScaling, s1)

/-- The amino-acid alphabet of `generateTestSequence` (benchmark.cpp line 41). -/
def amino_acids : String := "ACDEFGHIKLMNPQRSTVWY*"

/-- The generation loop of `generateTestSequence`: append `n` alphabet
symbols drawn through the distribution, threading the engine state. -/
def genPayload : Nat → MTState → String → String × MTState
  | 0, s, acc => (acc, s)
  | n+1, s, acc =>
    let (d, s1) := distDraw 1000 s
    genPayload n s1 (acc.push (amino_acids.toList.getD d 'A'))

/-- `generateTestSequence(length)` (benchmark.cpp lines 40-51): header line
`">" + length + "_test_sequence\n"` followed by `length` random alphabet
symbols.  The engine state is the shared member `rng`, threaded explicitly. -/
def generateTestSequence (s : MTState) (length : Nat) : String × MTState :=
  genPayload length s (">" ++ toString length ++ "_test_sequence\n")

/-! ## benchmark.cpp: artifact naming and re-parsing -/

/-- File name produced by `createTestFiles` (benchmark.cpp line 59):
`"test_" + to_string(len) + ".faa"`. -/
def testFileName (len : Nat) : String := "test_" ++ toString len ++ ".faa"

/-- The sequence lengths the harness generates and benchmarks
(benchmark.cpp line 55). -/
def harnessLengths : List Nat := [10, 25, 50, 100, 200, 500, 1000]

/-- Digit-prefix accumulation, the behavior of `stoi` on the digit strings
arising here (parsing stops at the first non-digit). -/
def stoiDigits : List Char → Nat → Nat
  | [], acc => acc
  | c :: cs, acc => if c.isDigit then stoiDigits cs (acc * 10 + (c.toNat - 48)) else acc

/-- The length re-parse of `runBenchmarkSuite` (benchmark.cpp lines 113-116):
`pos1 = find('_') + 1`, `pos2 = find('.')`, `stoi(substr(pos1, pos2 - pos1))`. -/
def parseSeqLength (file : String) : Nat :=
  let cs := file.toList
  let pos1 := cs.findIdx (fun c => c = '_') + 1
  let pos2 := cs.findIdx (fun c => c = '.')
  stoiDigits ((cs.drop pos1).take (pos2 - pos1)) 0

/-! ## benchmark.cpp: process runner, matrix runner and aggregation

A matrix cell's externally determined data are the child's exit status and
the measured wall-clock duration; everything the harness computes from them
is embedded below. -/

/-- One matrix cell as observed by the harness: configuration label, the
`system()` exit status, and the measured elapsed milliseconds. -/
abbrev Row := String × Int × ℚ

/-- `benchmarkCDSfold` (benchmark.cpp lines 68-83): returns the measured
duration on a zero exit status and the sentinel `-1.0` otherwise. -/
def benchmarkCDSfold (result : Int) (elapsed : ℚ) : ℚ :=
  if result ≠ 0 then -1 else elapsed

/-- Cell status as printed and as used for recording. -/
inductive CellStatus
  | ok
  | failed
deriving DecidableEq

/-- `status = (time_ms > 0) ? "OK" : "FAILED"` (benchmark.cpp line 121). -/
def cellStatus (time_ms : ℚ) : CellStatus :=
  if time_ms > 0 then CellStatus.ok else CellStatus.failed

/-- The per-label sample vector built by `runBenchmarkSuite` (benchmark.cpp
lines 119-133): each cell's `benchmarkCDSfold` value is pushed onto
`results[label]` exactly when it is positive, in matrix order. -/
def recordedTimes (rows : List Row) (label : String) : List ℚ :=
  rows.filterMap (fun row =>
    let t := benchmarkCDSfold row.2.1 row.2.2
    if row.1 = label ∧ 0 < t then some t else none)

/-- The per-configuration statistics of `analyzeResults` (benchmark.cpp
lines 145-164): an empty sample list is skipped (`continue`); otherwise
`min`/`max` start from the first sample and fold over the whole vector,
the mean is the sum divided by the count.  Result: (count, mean, min, max). -/
def analyzeStats : List ℚ → Option (Nat × ℚ × ℚ × ℚ)
  | [] => none
  | x :: xs =>
    let l := x :: xs
    some (l.length, (l.foldl (fun a b => a + b) 0) / (l.length : ℚ),
          l.foldl min x, l.foldl max x)

/-- The statistical summary the harness reports for one configuration label. -/
def summaryFor (rows : List Row) (label : String) : Option (Nat × ℚ × ℚ × ℚ) :=
  analyzeStats (recordedTimes rows label)

/-- The configuration matrix of `runBenchmarkSuite` (benchmark.cpp lines 92-98). -/
def testConfigs : List (String × String) :=
  [("default", ""), ("window_20", "-w 20"), ("window_50", "-w 50"),
   ("exclude_codons", "-e GUA,GUC,CUG"), ("reverse_opt", "-r")]

/-- Top-level control flow of `main` (benchmark.cpp lines 207-245): when the
executable-presence check fails, return exit code 1 without any matrix work
(summary component `none`); otherwise run the whole pipeline and return 0,
whatever the individual cell outcomes were. -/
def mainModel (present : Bool) (rows : List Row) :
    Nat × Option (List (String × Option (Nat × ℚ × ℚ × ℚ))) :=
  if present then
    (0, some (testConfigs.map (fun cfg => (cfg.1, summaryFor rows cfg.1))))
  else
    (1, none)

end CDSfold

namespace CDSfold

/-! ## Helper lemmas -/

lemma foldl_add_eq (l : List ℚ) : ∀ a : ℚ, l.foldl (fun x y => x + y) a = a + l.sum := by
  induction l with
  | nil => intro a; simp
  | cons x t ih => intro a; simp only [List.foldl_cons, ih, List.sum_cons]; ring

lemma foldl_min_le_init : ∀ (l : List ℚ) (a : ℚ), l.foldl min a ≤ a := by
  intro l
  induction l with
  | nil => intro a; simp
  | cons x t ih => intro a; exact le_trans (ih (min a x)) (min_le_left a x)

lemma foldl_min_le_mem : ∀ (l : List ℚ) (a y : ℚ), y ∈ l → l.foldl min a ≤ y := by
  intro l
  induction l with
  | nil => intro a y hy; cases hy
  | cons x t ih =>
    intro a y hy
    rcases List.mem_cons.mp hy with h | h
    · subst h; exact le_trans (foldl_min_le_init t (min a y)) (min_le_right a y)
    · exact ih (min a x) y h

lemma foldl_min_mem_or : ∀ (l : List ℚ) (a : ℚ), l.foldl min a = a ∨ l.foldl min a ∈ l := by
  intro l
  induction l with
  | nil => intro a; left; rfl
  | cons x t ih =>
    intro a
    rcases ih (min a x) with h | h
    · rcases min_choice a x with hc | hc
      · left; simp only [List.foldl_cons]; rw [h, hc]
      · right; simp only [List.foldl_cons]; rw [h, hc]; exact List.mem_cons_self x t
    · right; exact List.mem_cons_of_mem x h

lemma le_foldl_max_init : ∀ (l : List ℚ) (a : ℚ), a ≤ l.foldl max a := by
  intro l
  induction l with
  | nil => intro a; simp
  | cons x t ih => intro a; exact le_trans (le_max_left a x) (ih (max a x))

lemma mem_le_foldl_max : ∀ (l : List ℚ) (a y : ℚ), y ∈ l → y ≤ l.foldl max a := by
  intro l
  induction l with
  | nil => intro a y hy; cases hy
  | cons x t ih =>
    intro a y hy
    rcases List.mem_cons.mp hy with h | h
    · subst h; exact le_trans (le_max_right a y) (le_foldl_max_init t (max a y))
    · exact ih (max a x) y h

lemma foldl_max_mem_or : ∀ (l : List ℚ) (a : ℚ), l.foldl max a = a ∨ l.foldl max a ∈ l := by
  intro l
  induction l with
  | nil => intro a; left; rfl
  | cons x t ih =>
    intro a
    rcases ih (max a x) with h | h
    · rcases max_choice a x with hc | hc
      · left; simp only [List.foldl_cons]; rw [h, hc]
      · right; simp only [List.foldl_cons]; rw [h, hc]; exact List.mem_cons_self x t
    · right; exact List.mem_cons_of_mem x h

lemma length_mul_le_sum (l : List ℚ) (b : ℚ) (h : ∀ y ∈ l, b ≤ y) :
    (l.length : ℚ) * b ≤ l.sum := by
  induction l with
  | nil => simp
  | cons x t ih =>
    have hx : b ≤ x := h x (List.mem_cons_self x t)
    have ht := ih (fun y hy => h y (List.mem_cons_of_mem x hy))
    simp only [List.sum_cons, List.length_cons]
    push_cast
    have hexp : ((t.length : ℚ) + 1) * b = (t.length : ℚ) * b + b := by ring
    rw [hexp]
    linarith

lemma sum_le_length_mul (l : List ℚ) (b : ℚ) (h : ∀ y ∈ l, y ≤ b) :
    l.sum ≤ (l.length : ℚ) * b := by
  induction l with
  | nil => simp
  | cons x t ih =>
    have hx : x ≤ b := h x (List.mem_cons_self x t)
    have ht := ih (fun y hy => h y (List.mem_cons_of_mem x hy))
    simp only [List.sum_cons, List.length_cons]
    push_cast
    have hexp : ((t.length : ℚ) + 1) * b = (t.length : ℚ) * b + b := by ring
    rw [hexp]
    linarith

lemma stats_bounds (l : List ℚ) (c : Nat) (avg mn mx : ℚ)
    (h : analyzeStats l = some (c, avg, mn, mx)) : mn ≤ avg ∧ avg ≤ mx := by
  cases l with
  | nil => simp [analyzeStats] at h
  | cons x xs =>
    simp only [analyzeStats, Option.some.injEq, Prod.mk.injEq] at h
    obtain ⟨hc, havg, hmn, hmx⟩ := h
    have hlen : (0 : ℚ) < ((x :: xs).length : ℚ) := by
      simp only [List.length_cons]
      push_cast
      positivity
    have hsum : (x :: xs).foldl (fun a b => a + b) 0 = (x :: xs).sum := by
      rw [foldl_add_eq]; ring
    constructor
    · rw [← havg, ← hmn, hsum, le_div_iff₀ hlen]
      have hb : ∀ y ∈ x :: xs, (x :: xs).foldl min x ≤ y :=
        fun y hy => foldl_min_le_mem (x :: xs) x y hy
      have := length_mul_le_sum (x :: xs) ((x :: xs).foldl min x) hb
      linarith
    · rw [← havg, ← hmx, hsum, div_le_iff₀ hlen]
      have hb : ∀ y ∈ x :: xs, y ≤ (x :: xs).foldl max x :=
        fun y hy => mem_le_foldl_max (x :: xs) x y hy
      have := sum_le_length_mul (x :: xs) ((x :: xs).foldl max x) hb
      linarith

lemma two_mul_old (len : Int) :
    ∀ n : Nat, 2 * ((List.range n).foldl (fun size i => size + (len - Int.ofNat i)) 0)
      = 2 * n * len - n * (n - 1) := by
  intro n
  induction n with
  | zero => simp
  | succ m ih =>
    rw [List.range_succ, List.foldl_append]
    simp only [List.foldl_cons, List.foldl_nil]
    simp only [Int.ofNat_eq_natCast] at ih ⊢
    push_cast
    ring_nf
    ring_nf at ih
    linarith

end CDSfold

namespace CDSfold

/-- Unfolding equation for `analyzeStats` on a non-empty list. -/
lemma analyzeStats_cons (x : ℚ) (xs : List ℚ) :
    analyzeStats (x :: xs) = some ((x :: xs).length,
      ((x :: xs).foldl (fun a b => a + b) 0) / (((x :: xs).length : ℕ) : ℚ),
      (x :: xs).foldl min x, (x :: xs).foldl max x) := rfl

/-! ## Claims -/

/-- C1 (counterexample): the loop-based and the formula-based matrix-size
computations are not equal for every positive length and window.  At
`len = 1`, `w = 3` (both positive) the loop sums `1 + 0 + (-1) = 0` while
the formula's `w > len` branch gives `1 * 2 / 2 = 1`. -/
theorem C1_counterexample_window_exceeds_length :
    old_getMatrixSize 1 3 ≠ new_getMatrixSize 1 3 := by decide

/-- C1 (amended): the baseline and candidate matrix-size computations agree
for every positive length `len` and every positive window `w` with
`w ≤ len` (the matrix-size operation's meaningful domain, and the domain
on which the micro-benchmark exercises it). -/
theorem C1_matrix_size_equiv (len w : Int) (hw : 1 ≤ w) (hwl : w ≤ len) :
    old_getMatrixSize len w = new_getMatrixSize len w := by
  have hw0 : 0 ≤ w := by linarith
  have hcast : ((w.toNat : Int)) = w := Int.toNat_of_nonneg hw0
  have hkey := two_mul_old len w.toNat
  rw [hcast] at hkey
  have heven : Even (w * (w - 1)) := by
    have h1 := Int.even_mul_succ_self (w - 1)
    have h2 : (w - 1) * (w - 1 + 1) = w * (w - 1) := by ring
    rwa [h2] at h1
  obtain ⟨k, hk⟩ := heven
  have htdiv : Int.tdiv (w * (w - 1)) 2 = k := by
    rw [hk, show k + k = 2 * k by ring]
    exact Int.mul_tdiv_cancel_left k (by norm_num)
  unfold old_getMatrixSize new_getMatrixSize
  rw [if_pos hwl, htdiv]
  linarith

/-- C1 (witness): the equivalence applied at `len = 5`, `w = 3`. -/
theorem C1_matrix_size_equiv_witness :
    old_getMatrixSize 5 3 = new_getMatrixSize 5 3 :=
  C1_matrix_size_equiv 5 3 (by norm_num) (by norm_num)

/-- C3 (counterexample): the cell outcome is not classified by exit status
alone.  A cell whose child exits with the success status `0` but whose
measured duration is `0 ms` (possible at microsecond granularity) is
classified `FAILED`, contradicting the claim that a success exit status
yields outcome success. -/
theorem C3_counterexample_zero_duration :
    ¬ ∀ (r : Int) (e : ℚ), 0 ≤ e → r = 0 →
        cellStatus (benchmarkCDSfold r e) = CellStatus.ok := by
  intro h
  have h0 := h 0 0 le_rfl rfl
  norm_num [benchmarkCDSfold, cellStatus] at h0
  exact CellStatus.noConfusion h0

/-- C3 (amended): a cell is classified success exactly when the exit status
is `0` and the measured duration is positive; on a success exit the value
returned by the process runner is the measured duration itself; and the
per-configuration sample vector contains exactly the durations of cells
with success exit status and positive duration — in particular no
failed cell's measured duration is ever folded into the statistics. -/
theorem C3_classification :
    ∀ (r : Int) (e : ℚ),
      (cellStatus (benchmarkCDSfold r e) = CellStatus.ok ↔ r = 0 ∧ 0 < e) ∧
      (r = 0 → benchmarkCDSfold r e = e) ∧
      ∀ (rows : List Row) (label : String),
        recordedTimes rows label =
          rows.filterMap (fun row =>
            if row.1 = label ∧ row.2.1 = 0 ∧ 0 < row.2.2 then some row.2.2 else none) := by
  intro r e
  refine ⟨?_, ?_, ?_⟩
  · by_cases hr : r = 0
    · subst hr
      by_cases he : 0 < e <;> simp [benchmarkCDSfold, cellStatus, he]
    · simp only [benchmarkCDSfold, ne_eq, hr, not_false_eq_true, if_true]
      norm_num [cellStatus, hr]
      decide
  · intro hr; simp [benchmarkCDSfold, hr]
  · intro rows label
    induction rows with
    | nil => rfl
    | cons row tl ih =>
      obtain ⟨lb, res, el⟩ := row
      simp only [recordedTimes] at ih ⊢
      simp only [List.filterMap_cons, ih]
      by_cases hres : res = 0
      · subst hres
        by_cases hl : lb = label
        · by_cases he : 0 < el
          · norm_num [benchmarkCDSfold, hl, he]
          · norm_num [benchmarkCDSfold, hl, he]
        · norm_num [benchmarkCDSfold, hl]
      · by_cases hl : lb = label
        · norm_num [benchmarkCDSfold, hres, hl]
        · norm_num [benchmarkCDSfold, hres, hl]

/-- C5: whenever the aggregator reports statistics for a configuration
label (which it does exactly when that label has at least one recorded
sample), the reported minimum is at most the mean and the mean is at most
the maximum. -/
theorem C5_min_mean_max :
    ∀ (rows : List Row) (label : String) (c : Nat) (avg mn mx : ℚ),
      summaryFor rows label = some (c, avg, mn, mx) → mn ≤ avg ∧ avg ≤ mx :=
  fun rows label c avg mn mx h => stats_bounds (recordedTimes rows label) c avg mn mx h

/-- C5 (witness): on the three successful `default` cells with durations
`2, 1, 3` the summary is `(count 3, mean 2, min 1, max 3)` and `1 ≤ 2 ≤ 3`. -/
theorem C5_min_mean_max_witness : (1 : ℚ) ≤ 2 ∧ (2 : ℚ) ≤ 3 :=
  C5_min_mean_max [("default", 0, 2), ("default", 0, 1), ("default", 0, 3)]
    "default" 3 2 1 3
    (by norm_num [summaryFor, recordedTimes, analyzeStats, benchmarkCDSfold,
      List.filterMap_cons, min_def, max_def])

/-- C6: the aggregator's statistics (count, mean, min, max) are invariant
under permutation of the recorded sample list. -/
theorem C6_perm_invariant :
    ∀ (l1 l2 : List ℚ), l1.Perm l2 → analyzeStats l1 = analyzeStats l2 := by
  intro l1 l2 hp
  cases l1 with
  | nil =>
    have h2 : l2 = [] := hp.symm.eq_nil
    subst h2; rfl
  | cons x xs =>
    cases l2 with
    | nil => exact absurd hp.eq_nil (by simp)
    | cons y ys =>
      have hlen := hp.length_eq
      have hsum : (x :: xs).foldl (fun a b => a + b) 0
          = (y :: ys).foldl (fun a b => a + b) 0 := by
        rw [foldl_add_eq, foldl_add_eq, hp.sum_eq]
      have hm1 : (x :: xs).foldl min x ∈ x :: xs := by
        rcases foldl_min_mem_or (x :: xs) x with h | h
        · rw [h]; exact List.mem_cons_self x xs
        · exact h
      have hm2 : (y :: ys).foldl min y ∈ y :: ys := by
        rcases foldl_min_mem_or (y :: ys) y with h | h
        · rw [h]; exact List.mem_cons_self y ys
        · exact h
      have hmin : (x :: xs).foldl min x = (y :: ys).foldl min y :=
        le_antisymm
          (foldl_min_le_mem (x :: xs) x _ (hp.mem_iff.mpr hm2))
          (foldl_min_le_mem (y :: ys) y _ (hp.mem_iff.mp hm1))
      have hx1 : (x :: xs).foldl max x ∈ x :: xs := by
        rcases foldl_max_mem_or (x :: xs) x with h | h
        · rw [h]; exact List.mem_cons_self x xs
        · exact h
      have hx2 : (y :: ys).foldl max y ∈ y :: ys := by
        rcases foldl_max_mem_or (y :: ys) y with h | h
        · rw [h]; exact List.mem_cons_self y ys
        · exact h
      have hmax : (x :: xs).foldl max x = (y :: ys).foldl max y :=
        le_antisymm
          (mem_le_foldl_max (y :: ys) y _ (hp.mem_iff.mp hx1))
          (mem_le_foldl_max (x :: xs) x _ (hp.mem_iff.mpr hx2))
      rw [analyzeStats_cons, analyzeStats_cons, hlen, hsum, hmin, hmax]

/-- C6 (witness): the permuted sample lists `[1, 2]` and `[2, 1]` receive
identical summaries. -/
theorem C6_perm_invariant_witness :
    analyzeStats [(1 : ℚ), 2] = analyzeStats [2, 1] :=
  C6_perm_invariant [1, 2] [2, 1] (by decide)

/-- C7: the summary for a configuration label is absent (`none`, the
label is skipped) exactly when that label has zero recorded samples; a
non-empty sample list always produces a real statistic, and an empty one
never produces a fabricated number. -/
theorem C7_empty_label_no_data :
    ∀ (rows : List Row) (label : String),
      summaryFor rows label = none ↔ recordedTimes rows label = [] := by
  intro rows label
  unfold summaryFor
  cases h : recordedTimes rows label with
  | nil => simp [analyzeStats]
  | cons a t => simp [analyzeStats]

/-- C8: the micro-benchmark improvement percentage is
`(baseline − candidate) / baseline × 100`, reported verbatim: it equals
exactly `25` for baseline `100` and candidate `75`, and exactly `-20`
(negative, not clamped) for candidate `120`. -/
theorem C8_improvement_sign :
    improvement_pct 100 75 = 25 ∧ improvement_pct 100 120 = -20 := by
  constructor <;> norm_num [improvement_pct]

/-- C9: when the external executable is absent, `main` exits with status 1
and no matrix work is reachable (the summary component is `none`); when it
is present, the exit status is 0 whatever the cell outcomes are. -/
theorem C9_exit_behavior :
    ∀ rows : List Row,
      mainModel false rows = (1, none) ∧ (mainModel true rows).1 = 0 :=
  fun _ => ⟨rfl, rfl⟩

/-- C10: for every sequence length the harness uses, re-parsing the
generated file name `test_N.faa` (the substring between the first
underscore and the dot, interpreted as a decimal) recovers exactly `N`. -/
theorem C10_filename_length_roundtrip :
    ∀ len ∈ harnessLengths, parseSeqLength (testFileName len) = len := by decide

/-- C10 (witness): the round-trip applied at length 1000. -/
theorem C10_filename_length_roundtrip_witness :
    parseSeqLength (testFileName 1000) = 1000 :=
  C10_filename_length_roundtrip 1000 (by decide)

end CDSfold

namespace CDSfold

set_option maxRecDepth 100000

/-- C2 (counterexample): the corpus generator is not byte-identical across
two repeated invocations within the same run.  `generateTestSequence` draws
from the shared member engine `rng` (seeded 42 once, at construction), so
the second call at the same length starts from the advanced state and
produces a different payload.  Computed bit-exactly: the first call at
length 10 yields payload `ITYESTPPEL`, the second `EDCLWIPERQ`. -/
theorem C2_counterexample_repeat_not_identical :
    (generateTestSequence (mt19937Seed 42) 10).1 ≠
      (generateTestSequence (generateTestSequence (mt19937Seed 42) 10).2 10).1 := by
  decide

/-- C2 (amended): for the fixed seed 42 and length 10, each invocation's
output is a fixed byte string — the first and second calls always produce
exactly these bytes, hence byte-identical output across process runs for
the same invocation position — while the two successive outputs of one run
differ in payload (the shared engine state advances between calls). -/
theorem C2_generator_deterministic_bytes :
    (generateTestSequence (mt19937Seed 42) 10).1 = ">10_test_sequence\nITYESTPPEL" ∧
    (generateTestSequence (generateTestSequence (mt19937Seed 42) 10).2 10).1 =
      ">10_test_sequence\nEDCLWIPERQ" := by
  decide

end CDSfold
